import Mathlib

/-!
Shallow embedding of the reconciliation-and-analytics core of the
lighterwallets position-tracking bot (source: src/unnamed/part_000).

Numbers are modelled as rationals (`ℚ`).  JavaScript objects keyed by
symbol strings are modelled as association lists that keep insertion
order (JS objects preserve insertion order for string keys, and
`new Set([...keys(old), ...keys(new)])` iterates in first-insertion
order).  The trade-record kind `partial_close` of the source is named
`treduce` here, and `open` is named `topen` (both are reserved or
restricted words in Lean).
-/

namespace LighterWallets

/-- One open position, as produced by `fetchPositions` in the source. -/
structure Position where
  symbol : String
  position : ℚ
  avg_entry_price : ℚ
  sign : Int
  open_order_count : Nat
  unrealized_pnl : ℚ
  position_value : Option ℚ
  mark_price : Option ℚ
deriving DecidableEq, Repr

/-- A position snapshot for one address: collateral balance plus the
open positions keyed by symbol (insertion-ordered association list). -/
structure Snapshot where
  balance : ℚ
  positions : List (String × Position)
deriving DecidableEq, Repr

/-- JS object property lookup `positions[sym]`: first binding for the key. -/
def posLookup (ps : List (String × Position)) (s : String) : Option Position :=
  (ps.find? (fun p => p.1 == s)).map (fun p => p.2)

/-- Position side, from the numeric `sign` field (`1` = LONG else SHORT). -/
inductive Side | LONG | SHORT
deriving DecidableEq, Repr

def sideOf (sign : Int) : Side := if sign = 1 then .LONG else .SHORT

/-- Trade-record kinds of the source: `open`, `increase`, `partial_close`,
`close` are modelled as `topen`, `tincrease`, `treduce`, `tclose`. -/
inductive TradeType | topen | tincrease | treduce | tclose
deriving DecidableEq, Repr

/-- An immutable ledger entry pushed onto `tradeHistory`. -/
structure TradeRecord where
  symbol : String
  side : Side
  size : ℚ
  entryPrice : ℚ
  exitPrice : Option ℚ
  pnl : ℚ
  timestamp : Nat
  ttype : TradeType
deriving DecidableEq, Repr

/-- One `{balance, timestamp}` record of `balanceHistory`. -/
structure BalanceRecord where
  balance : ℚ
  timestamp : Nat
deriving DecidableEq, Repr

/-- The per-address P&L aggregation state (`walletPnL[address]`). -/
structure PnLState where
  totalPnL : ℚ
  realizedPnL : ℚ
  unrealizedPnL : ℚ
  trades : Nat
  startTime : Nat
  initialBalance : ℚ
  lastBalance : ℚ
  tradeHistory : List TradeRecord
  balanceHistory : List BalanceRecord
deriving DecidableEq, Repr

/-- JS `x || d` applied to an optional number: `null`/`undefined` and `0`
are falsy, so both fall back to `d`. -/
def jsOrQ (x : Option ℚ) (d : ℚ) : ℚ :=
  match x with
  | some q => if q = 0 then d else q
  | none => d

/-- `Math.abs`. -/
def jsAbs (q : ℚ) : ℚ := if q < 0 then -q else q

/-- `initializeWalletPnL`: create the state only when absent. -/
def initializeWalletPnL (existing : Option PnLState) (initialBalance : ℚ)
    (now : Nat) : PnLState :=
  match existing with
  | some st => st
  | none =>
    { totalPnL := 0, realizedPnL := 0, unrealizedPnL := 0, trades := 0,
      startTime := now, initialBalance := initialBalance,
      lastBalance := initialBalance, tradeHistory := [],
      balanceHistory := [⟨initialBalance, now⟩] }

/-- Iteration order of `new Set(keys)`: first occurrence of each key. -/
def uniqueKeys : List String → List String
  | [] => []
  | x :: xs => x :: uniqueKeys (xs.filter (fun y => y != x))
termination_by l => l.length
decreasing_by simpa using Nat.lt_succ_of_le (List.length_filter_le _ _)

/-- Keep the last `n` entries (`arr.slice(-n)`, applied when over the cap;
a no-op when the list is not longer than `n`). -/
def keepLast (n : Nat) (l : List α) : List α := l.drop (l.length - n)

/-- The `close` trade record pushed when a symbol disappears. -/
def closeRecord (s : String) (o : Position) (now : Nat) : TradeRecord :=
  { symbol := s, side := sideOf o.sign, size := o.position,
    entryPrice := o.avg_entry_price,
    exitPrice := some (jsOrQ o.mark_price o.avg_entry_price),
    pnl := o.unrealized_pnl, timestamp := now, ttype := .tclose }

/-- The `open` trade record pushed when a symbol appears. -/
def openRecord (s : String) (n : Position) (now : Nat) : TradeRecord :=
  { symbol := s, side := sideOf n.sign, size := n.position,
    entryPrice := n.avg_entry_price, exitPrice := none, pnl := 0,
    timestamp := now, ttype := .topen }

/-- The `increase` trade record pushed when a size grows. -/
def increaseRecord (s : String) (o n : Position) (now : Nat) : TradeRecord :=
  { symbol := s, side := sideOf n.sign, size := jsAbs (n.position - o.position),
    entryPrice := n.avg_entry_price, exitPrice := none, pnl := 0,
    timestamp := now, ttype := .tincrease }

/-- The `partial_close` trade record pushed when a size shrinks; its pnl
is the old unrealized pnl scaled by `sizeDiff / oldPos.position`. -/
def reduceRecord (s : String) (o n : Position) (now : Nat) : TradeRecord :=
  { symbol := s, side := sideOf o.sign, size := jsAbs (n.position - o.position),
    entryPrice := o.avg_entry_price,
    exitPrice := some (jsOrQ n.mark_price o.avg_entry_price),
    pnl := o.unrealized_pnl * (jsAbs (n.position - o.position) / o.position),
    timestamp := now, ttype := .treduce }

/-- The trade records the `allSymbols.forEach` body of `updateWalletPnL`
pushes for one symbol. -/
def symbolTrades (oldP newP : List (String × Position)) (now : Nat)
    (s : String) : List TradeRecord :=
  match posLookup oldP s, posLookup newP s with
  | some o, none => [closeRecord s o now]
  | none, some n => [openRecord s n now]
  | some o, some n =>
      if o.position ≠ n.position then
        if o.position < n.position then [increaseRecord s o n now]
        else [reduceRecord s o n now]
      else []
  | none, none => []

/-- Records that realize pnl: kinds `close` and `partial_close`. -/
def isClosing (t : TradeRecord) : Bool :=
  t.ttype == .tclose || t.ttype == .treduce

/-- Realized-pnl contribution of one symbol in one update. -/
def symbolRealized (oldP newP : List (String × Position)) (now : Nat)
    (s : String) : ℚ :=
  (((symbolTrades oldP newP now s).filter isClosing).map (fun t => t.pnl)).sum

/-- Trade-count contribution of one symbol in one update. -/
def symbolCloses (oldP newP : List (String × Position)) (now : Nat)
    (s : String) : Nat :=
  ((symbolTrades oldP newP now s).filter isClosing).length

/-- The body of `allSymbols.forEach(symbol => ...)` in `updateWalletPnL`:
push the records for this symbol and fold realized pnl / trade count. -/
def stepSymbol (oldP newP : List (String × Position)) (now : Nat)
    (st : PnLState) (s : String) : PnLState :=
  match posLookup oldP s, posLookup newP s with
  | some o, none =>
      let trade := closeRecord s o now
      { st with tradeHistory := st.tradeHistory ++ [trade],
                realizedPnL := st.realizedPnL + trade.pnl,
                trades := st.trades + 1 }
  | none, some n =>
      { st with tradeHistory := st.tradeHistory ++ [openRecord s n now] }
  | some o, some n =>
      if o.position ≠ n.position then
        if o.position < n.position then
          { st with tradeHistory := st.tradeHistory ++ [increaseRecord s o n now] }
        else
          let trade := reduceRecord s o n now
          { st with tradeHistory := st.tradeHistory ++ [trade],
                    realizedPnL := st.realizedPnL + trade.pnl,
                    trades := st.trades + 1 }
      else st
  | none, none => st

/-- The whole `allSymbols.forEach` loop. -/
def applyChanges (oldP newP : List (String × Position)) (now : Nat)
    (syms : List String) (st : PnLState) : PnLState :=
  syms.foldl (stepSymbol oldP newP now) st

/-- `updateWalletPnL(address, oldState, newState)`; `now` is `Date.now()`. -/
def updateWalletPnL (existing : Option PnLState)
    (oldState newState : Option Snapshot) (now : Nat) : PnLState :=
  let st0 := initializeWalletPnL existing
    (jsOrQ (newState.map (fun s => s.balance)) 0) now
  let oldP := (oldState.map (fun s => s.positions)).getD []
  let newP := (newState.map (fun s => s.positions)).getD []
  let newBalance := jsOrQ (newState.map (fun s => s.balance)) 0
  let currentUnrealizedPnL := (newP.map (fun p => p.2.unrealized_pnl)).sum
  let allSymbols := uniqueKeys (oldP.map Prod.fst ++ newP.map Prod.fst)
  let st1 := applyChanges oldP newP now allSymbols st0
  let st2 := { st1 with
    unrealizedPnL := currentUnrealizedPnL,
    lastBalance := newBalance,
    totalPnL := st1.realizedPnL + currentUnrealizedPnL,
    balanceHistory := st1.balanceHistory ++ [(⟨newBalance, now⟩ : BalanceRecord)] }
  { st2 with
    balanceHistory := keepLast 1000 st2.balanceHistory,
    tradeHistory := keepLast 1000 st2.tradeHistory }

/-! ## Diff engine (`comparePositions`)

The source builds one formatted message per change; the structured
content of each message (symbol, before/after positions, and the
`opened` / `closed` / `increased` / `reduced` classification chosen) is
modelled as a `ChangeEvent`. -/

/-- Classification used by `formatPositionUpdate`: its `switch` knows
`increased`, `reduced` (and a default `POSITION UPDATED` title, `updated`,
which `comparePositions` never selects). -/
inductive ChangeAction | increased | reduced | updated
deriving DecidableEq, Repr

inductive ChangeEvent
  | opened (symbol : String) (n : Position)
  | closed (symbol : String) (o : Position)
  | changed (symbol : String) (o n : Position) (action : ChangeAction)
deriving DecidableEq, Repr

def eventSymbol : ChangeEvent → String
  | .opened s _ => s
  | .closed s _ => s
  | .changed s _ _ _ => s

/-- The event (if any) `comparePositions` emits for one symbol. -/
def eventFor (oldP newP : List (String × Position)) (s : String) :
    Option ChangeEvent :=
  match posLookup oldP s, posLookup newP s with
  | none, some n => some (.opened s n)
  | some o, none => some (.closed s o)
  | some o, some n =>
      if o.position ≠ n.position ∨ o.avg_entry_price ≠ n.avg_entry_price then
        some (.changed s o n
          (if o.position < n.position then .increased else .reduced))
      else none
  | none, none => none

/-- Symbols visited by the diff: `new Set([...keys(old), ...keys(new)])`. -/
def allUpdateSymbols (oldS newS : Snapshot) : List String :=
  uniqueKeys (oldS.positions.map Prod.fst ++ newS.positions.map Prod.fst)

/-- `comparePositions(oldPos, newPos)`: one event per changed symbol, in
set-iteration order. -/
def comparePositions (oldS newS : Snapshot) : List ChangeEvent :=
  (allUpdateSymbols oldS newS).filterMap (eventFor oldS.positions newS.positions)

/-- All trade records one `updateWalletPnL` call pushes, in order. -/
def tradesOfUpdate (oldS newS : Snapshot) (now : Nat) : List TradeRecord :=
  ((allUpdateSymbols oldS newS).map
    (symbolTrades oldS.positions newS.positions now)).flatten

/-! ## Resilient fetch (`fetchPositions`) and the monitor cycle -/

/-- One raw position of the upstream account payload. -/
structure RawPosition where
  symbol : String
  position : ℚ
  avg_entry_price : ℚ
  sign : Int
  open_order_count : Nat
  unrealized_pnl : ℚ
  position_value : ℚ
  market_id : Nat
deriving DecidableEq, Repr

/-- `json.accounts[0]` of the upstream payload. -/
structure ApiAccount where
  collateral : ℚ
  positions : List RawPosition
deriving DecidableEq, Repr

/-- Outcome of one `fetchPositions` attempt, as distinguished by the
source: bad checksum, `fetchWithRetry` throwing after all retries,
a payload with no account, or a good account payload. -/
inductive FetchResult
  | invalidAddress
  | fetchFailed
  | noAccount
  | ok (acc : ApiAccount)
deriving DecidableEq, Repr

/-- JS `positions[symbol] = value`: overwrite in place or append. -/
def objInsert (ps : List (String × Position)) (kv : String × Position) :
    List (String × Position) :=
  if ps.any (fun p => p.1 == kv.1) then
    ps.map (fun p => if p.1 == kv.1 then (p.1, kv.2) else p)
  else ps ++ [kv]

/-- `fetchPositions(addressRaw)`: every failure path returns the synthetic
empty snapshot `{ balance: 0, positions: {} }`; on success, zero-size raw
positions are dropped and sizes stored as absolute values.  `marks` is the
mark-price source (`fetchMarkPrice`), which yields `null` on its own
failures. -/
def fetchPositions (r : FetchResult) (marks : Nat → Option ℚ) : Snapshot :=
  match r with
  | .ok acc =>
      { balance := acc.collateral,
        positions :=
          ((acc.positions.filter (fun p => p.position != 0)).map
            (fun p => (p.symbol,
              ({ symbol := p.symbol, position := jsAbs p.position,
                 avg_entry_price := p.avg_entry_price, sign := p.sign,
                 open_order_count := p.open_order_count,
                 unrealized_pnl := p.unrealized_pnl,
                 position_value := some p.position_value,
                 mark_price := marks p.market_id } : Position)))).foldl
            objInsert [] }
  | _ => { balance := 0, positions := [] }

/-- Monitor-relevant state for one tracked address: the stored previous
snapshot (`previousStates[address]`) and the aggregator state
(`walletPnL[address]`). -/
structure AddrState where
  prev : Option Snapshot
  pnl : Option PnLState
deriving DecidableEq, Repr

/-- One iteration of the `setInterval` monitor body for one address:
fetch, first-observation guard, diff, conditional aggregator update,
snapshot replacement.  Returns the new state and the emitted events. -/
def monitorStep (st : AddrState) (r : FetchResult) (marks : Nat → Option ℚ)
    (now : Nat) : AddrState × List ChangeEvent :=
  let newState := fetchPositions r marks
  match st.prev with
  | none => ({ prev := some newState, pnl := st.pnl }, [])
  | some oldState =>
      let diffs := comparePositions oldState newState
      if diffs.isEmpty then ({ prev := some newState, pnl := st.pnl }, [])
      else
        ({ prev := some newState,
           pnl := some (updateWalletPnL st.pnl (some oldState)
             (some newState) now) }, diffs)

/-! ## Statistics reader (`getWalletPnLStats`) — the parts the claims use -/

/-- Closed trades: kinds `close` and `partial_close`. -/
def closedTrades (st : PnLState) : List TradeRecord :=
  st.tradeHistory.filter isClosing

/-- The predicate of the `find` in the holding-time computation: an `open`
record for the same symbol and side strictly before the close `t`. -/
def matchesOpen (t u : TradeRecord) : Bool :=
  u.symbol == t.symbol && u.side == t.side && u.ttype == .topen &&
    decide (u.timestamp < t.timestamp)

/-- `tradeHistory.find(...)`: the FIRST record of the history satisfying
the predicate. -/
def findOpenFor (history : List TradeRecord) (t : TradeRecord) :
    Option TradeRecord :=
  history.find? (matchesOpen t)

/-- Hold times in hours: unmatched closes contribute `0` and are then
filtered out together with non-positive deltas. -/
def holdTimes (st : PnLState) : List ℚ :=
  (((closedTrades st)).map (fun t =>
    match findOpenFor st.tradeHistory t with
    | some u => ((t.timestamp : ℚ) - (u.timestamp : ℚ)) / 3600000
    | none => 0)).filter (fun q => decide (0 < q))

/-- `avgHoldTime` (the exact mean; the source formats it with
`toFixed(1)` for display only). -/
def avgHoldTime (st : PnLState) : ℚ :=
  if 0 < (closedTrades st).length then
    if 0 < (holdTimes st).length then
      (holdTimes st).sum / ((holdTimes st).length : ℚ)
    else 0
  else 0

/-! ## Rate gate (`checkRateLimit`) -/

def RATE_LIMIT_PER_USER : Nat := 30

/-- `getUserLimits(userId).rateLimit`: `none` models `Infinity` for
whitelisted users, otherwise the configured per-user limit. -/
def getUserRateLimit (whitelisted : Bool) : Option Nat :=
  if whitelisted then none else some RATE_LIMIT_PER_USER

/-- `checkRateLimit` for a non-privileged caller: prune timestamps older
than 60 s, reject (without recording a timestamp) when the window is
full, otherwise record `now` and admit.  Returns (admitted?, new window).
Times are in milliseconds. -/
def checkRateLimit (limit : Nat) (now : Nat) (requests : List Nat) :
    Bool × List Nat :=
  let pruned := requests.filter (fun t => decide (now - t < 60000))
  if limit ≤ pruned.length then (false, pruned)
  else (true, pruned ++ [now])

/-- Replay a sequence of calls through `checkRateLimit`, counting admits. -/
def runCalls (limit : Nat) : List Nat → List Nat → Nat × List Nat
  | [], reqs => (0, reqs)
  | c :: cs, reqs =>
      let r := checkRateLimit limit c reqs
      let rest := runCalls limit cs r.2
      ((if r.1 then 1 else 0) + rest.1, rest.2)

/-! ## Max drawdown with JavaScript number semantics

The drawdown loop divides by the running `peak` with no zero guard; to
state what the source then reports, the division result is modelled with
explicit `Infinity` / `NaN` values (all other arithmetic in the loop
stays rational because its inputs are finite). -/

inductive JsNum | num (q : ℚ) | inf | ninf | nan
deriving DecidableEq, Repr

/-- JS division `a / b` for finite `a`, `b`. -/
def jsDiv (a b : ℚ) : JsNum :=
  if b = 0 then (if 0 < a then .inf else if a < 0 then .ninf else .nan)
  else .num (a / b)

/-- JS multiplication by the finite constant `100`. -/
def jsMul100 : JsNum → JsNum
  | .num q => .num (q * 100)
  | .inf => .inf
  | .ninf => .ninf
  | .nan => .nan

/-- JS `>` on numbers (`NaN` compares false). -/
def jsGt : JsNum → JsNum → Bool
  | .nan, _ => false
  | _, .nan => false
  | .inf, .inf => false
  | .inf, _ => true
  | .ninf, _ => false
  | .num _, .inf => false
  | .num _, .ninf => true
  | .num a, .num b => decide (b < a)

/-- `totalValue` at one balance record: balance plus the pnl of all
non-closing trades up to that timestamp. -/
def equityAt (st : PnLState) (record : BalanceRecord) : ℚ :=
  record.balance +
    ((st.tradeHistory.filter (fun t =>
      decide (t.timestamp ≤ record.timestamp) && !(t.ttype == .tclose) &&
        !(t.ttype == .treduce))).map (fun t => t.pnl)).sum

/-- The max-drawdown loop of `getWalletPnLStats`: running peak starts at
`initialBalance`; on a new peak the drawdown resets, otherwise
`(peak - totalValue) / peak * 100` is compared against the running max. -/
def maxDrawdownJs (st : PnLState) : JsNum :=
  (st.balanceHistory.foldl (fun acc record =>
    let peak := acc.2
    let totalValue := equityAt st record
    if peak < totalValue then (acc.1, totalValue)
    else
      let cur := jsMul100 (jsDiv (peak - totalValue) peak)
      (if jsGt cur acc.1 then cur else acc.1, peak)) (JsNum.num 0, st.initialBalance)).1

/-! ## Helper lemmas -/

theorem uniqueKeys_spec (l : List String) :
    (uniqueKeys l).Nodup ∧ ∀ a, (a ∈ uniqueKeys l ↔ a ∈ l) := by
  induction l using uniqueKeys.induct with
  | case1 => simp [uniqueKeys]
  | case2 x xs ih =>
      rw [uniqueKeys]
      constructor
      · refine List.nodup_cons.mpr ⟨?_, ih.1⟩
        intro hx
        have := (ih.2 x).mp hx
        simp at this
      · intro a
        rcases ih with ⟨-, hmem⟩
        by_cases hax : a = x
        · subst hax; simp
        · simp only [List.mem_cons, hmem, List.mem_filter]
          simp [hax]

theorem uniqueKeys_nodup (l : List String) : (uniqueKeys l).Nodup :=
  (uniqueKeys_spec l).1

theorem mem_uniqueKeys {l : List String} {a : String} :
    a ∈ uniqueKeys l ↔ a ∈ l := (uniqueKeys_spec l).2 a

theorem stepSymbol_eq (oldP newP : List (String × Position)) (now : Nat)
    (st : PnLState) (s : String) :
    stepSymbol oldP newP now st s =
      { st with
        tradeHistory := st.tradeHistory ++ symbolTrades oldP newP now s,
        realizedPnL := st.realizedPnL + symbolRealized oldP newP now s,
        trades := st.trades + symbolCloses oldP newP now s } := by
  cases ho : posLookup oldP s <;> cases hn : posLookup newP s <;>
    simp only [stepSymbol, symbolTrades, symbolRealized, symbolCloses,
      ho, hn] <;>
    first
    | rfl
    | (split_ifs <;>
        simp [isClosing, closeRecord, openRecord, increaseRecord,
          reduceRecord])
    | simp [isClosing, closeRecord, openRecord, increaseRecord, reduceRecord]

theorem applyChanges_eq (oldP newP : List (String × Position)) (now : Nat)
    (syms : List String) (st : PnLState) :
    applyChanges oldP newP now syms st =
      { st with
        tradeHistory :=
          st.tradeHistory ++ (syms.map (symbolTrades oldP newP now)).flatten,
        realizedPnL :=
          st.realizedPnL + (syms.map (symbolRealized oldP newP now)).sum,
        trades := st.trades + (syms.map (symbolCloses oldP newP now)).sum } := by
  induction syms generalizing st with
  | nil => simp [applyChanges]
  | cons s syms ih =>
      rw [applyChanges, List.foldl_cons]
      rw [show List.foldl (stepSymbol oldP newP now)
            (stepSymbol oldP newP now st s) syms
          = applyChanges oldP newP now syms (stepSymbol oldP newP now st s)
          from rfl]
      rw [ih, stepSymbol_eq]
      cases st
      simp [List.append_assoc, add_assoc]

theorem symbolTrades_symbol (oldP newP : List (String × Position)) (now : Nat)
    (s : String) : ∀ t ∈ symbolTrades oldP newP now s, t.symbol = s := by
  cases ho : posLookup oldP s <;> cases hn : posLookup newP s <;>
    simp only [symbolTrades, ho, hn] <;>
    first
    | (split_ifs <;>
        simp [closeRecord, openRecord, increaseRecord, reduceRecord])
    | simp [closeRecord, openRecord, increaseRecord, reduceRecord]

theorem flatten_filter_nil {α : Type} (f : String → List α) (p : α → Bool) :
    ∀ (syms : List String), (∀ s' ∈ syms, (f s').filter p = []) →
      ((syms.map f).flatten).filter p = []
  | [], _ => by simp
  | x :: xs, h => by
      simp only [List.map_cons, List.flatten_cons, List.filter_append]
      rw [h x (by simp),
        flatten_filter_nil f p xs (fun s' hs' => h s' (by simp [hs']))]
      simp

theorem flatten_filter_single {α : Type} (f : String → List α) (p : α → Bool) :
    ∀ (syms : List String) (s : String), s ∈ syms → syms.Nodup →
      (∀ s' ∈ syms, s' ≠ s → ((f s').filter p) = []) →
      ((syms.map f).flatten).filter p = (f s).filter p
  | [], s, hmem, _, _ => by cases hmem
  | x :: xs, s, hmem, hnd, hother => by
      simp only [List.map_cons, List.flatten_cons, List.filter_append]
      rcases List.mem_cons.mp hmem with hx | hs
      · have hnotin : x ∉ xs := (List.nodup_cons.mp hnd).1
        have hrest : ((xs.map f).flatten).filter p = [] := by
          refine flatten_filter_nil f p xs (fun s' hs' => ?_)
          refine hother s' (by simp [hs']) (fun h => hnotin ?_)
          rw [← hx, ← h]
          exact hs'
        rw [hrest, hx]
        simp
      · have hxs : x ≠ s := fun h => (List.nodup_cons.mp hnd).1 (h ▸ hs)
        rw [hother x (by simp) hxs]
        simp only [List.nil_append]
        exact flatten_filter_single f p xs s hs (List.nodup_cons.mp hnd).2
          (fun s' hs' => hother s' (by simp [hs']))

theorem updateWalletPnL_tradeHistory (existing : Option PnLState)
    (oldS newS : Snapshot) (now : Nat) :
    (updateWalletPnL existing (some oldS) (some newS) now).tradeHistory =
      keepLast 1000
        ((initializeWalletPnL existing (jsOrQ (some newS.balance) 0)
          now).tradeHistory ++ tradesOfUpdate oldS newS now) := by
  simp [updateWalletPnL, applyChanges_eq, tradesOfUpdate, allUpdateSymbols]

theorem updateWalletPnL_realized (existing : Option PnLState)
    (oldS newS : Snapshot) (now : Nat) :
    (updateWalletPnL existing (some oldS) (some newS) now).realizedPnL =
      (initializeWalletPnL existing (jsOrQ (some newS.balance) 0)
          now).realizedPnL +
        ((allUpdateSymbols oldS newS).map
          (symbolRealized oldS.positions newS.positions now)).sum := by
  simp [updateWalletPnL, applyChanges_eq, allUpdateSymbols]

theorem updateWalletPnL_trades (existing : Option PnLState)
    (oldS newS : Snapshot) (now : Nat) :
    (updateWalletPnL existing (some oldS) (some newS) now).trades =
      (initializeWalletPnL existing (jsOrQ (some newS.balance) 0)
          now).trades +
        ((allUpdateSymbols oldS newS).map
          (symbolCloses oldS.positions newS.positions now)).sum := by
  simp [updateWalletPnL, applyChanges_eq, allUpdateSymbols]

theorem updateWalletPnL_balanceHistory (existing : Option PnLState)
    (oldS newS : Snapshot) (now : Nat) :
    (updateWalletPnL existing (some oldS) (some newS) now).balanceHistory =
      keepLast 1000
        ((initializeWalletPnL existing (jsOrQ (some newS.balance) 0)
            now).balanceHistory ++
          [(⟨jsOrQ (some newS.balance) 0, now⟩ : BalanceRecord)]) := by
  simp [updateWalletPnL, applyChanges_eq]

theorem posLookup_some_mem {ps : List (String × Position)} {s : String}
    {o : Position} (h : posLookup ps s = some o) : s ∈ ps.map Prod.fst := by
  unfold posLookup at h
  cases hf : ps.find? (fun p => p.1 == s) with
  | none => rw [hf] at h; cases h
  | some pr =>
      have hp := List.find?_some hf
      have hmem : pr ∈ ps := List.mem_of_find?_eq_some hf
      exact List.mem_map.mpr ⟨pr, hmem, by simpa using hp⟩

/-! ## Claim C7 -/

/-- C7: after every P&L aggregator update, `totalPnl = realizedPnl +
unrealizedPnl` holds; `totalPnl` is recomputed from the other two fields
(the stored `totalPnl` of the incoming state has no influence on the
result), and the freshly initialized state satisfies the invariant too. -/
theorem c7_totalPnl_invariant :
    (∀ (existing : Option PnLState) (oldState newState : Option Snapshot)
        (now : Nat),
      (updateWalletPnL existing oldState newState now).totalPnL =
        (updateWalletPnL existing oldState newState now).realizedPnL +
          (updateWalletPnL existing oldState newState now).unrealizedPnL)
    ∧ (∀ (st : PnLState) (q : ℚ) (oldState newState : Option Snapshot)
        (now : Nat),
        (updateWalletPnL (some { st with totalPnL := q }) oldState newState
            now).totalPnL =
          (updateWalletPnL (some st) oldState newState now).totalPnL)
    ∧ (∀ (b : ℚ) (now : Nat),
        (initializeWalletPnL none b now).totalPnL =
          (initializeWalletPnL none b now).realizedPnL +
            (initializeWalletPnL none b now).unrealizedPnL) := by
  refine ⟨fun existing oldState newState now => rfl,
    fun st q oldState newState now => ?_, fun b now => by simp [initializeWalletPnL]⟩
  simp [updateWalletPnL, applyChanges_eq, initializeWalletPnL]

/-! ## Claim C2 -/

/-- C2: a symbol present in the old snapshot and absent from the new one
contributes exactly one `close` trade record, whose pnl is the old
position's unrealized pnl; the update appends these records to the trade
history (modulo the 1000-cap trim) and folds their pnl and count into
`realizedPnL` / `trades`, this symbol contributing `o.unrealized_pnl` and
one trade. -/
theorem c2_close_trade (existing : Option PnLState) (oldS newS : Snapshot)
    (now : Nat) (s : String) (o : Position)
    (ho : posLookup oldS.positions s = some o)
    (hn : posLookup newS.positions s = none) :
    symbolTrades oldS.positions newS.positions now s = [closeRecord s o now]
    ∧ (closeRecord s o now).pnl = o.unrealized_pnl
    ∧ (closeRecord s o now).ttype = TradeType.tclose
    ∧ (tradesOfUpdate oldS newS now).filter
        (fun t => t.symbol == s && (t.ttype == TradeType.tclose))
        = [closeRecord s o now]
    ∧ (updateWalletPnL existing (some oldS) (some newS) now).tradeHistory =
        keepLast 1000
          ((initializeWalletPnL existing (jsOrQ (some newS.balance) 0)
            now).tradeHistory ++ tradesOfUpdate oldS newS now)
    ∧ (updateWalletPnL existing (some oldS) (some newS) now).realizedPnL =
        (initializeWalletPnL existing (jsOrQ (some newS.balance) 0)
            now).realizedPnL +
          ((allUpdateSymbols oldS newS).map
            (symbolRealized oldS.positions newS.positions now)).sum
    ∧ symbolRealized oldS.positions newS.positions now s = o.unrealized_pnl
    ∧ (updateWalletPnL existing (some oldS) (some newS) now).trades =
        (initializeWalletPnL existing (jsOrQ (some newS.balance) 0)
            now).trades +
          ((allUpdateSymbols oldS newS).map
            (symbolCloses oldS.positions newS.positions now)).sum
    ∧ symbolCloses oldS.positions newS.positions now s = 1 := by
  have hTr : symbolTrades oldS.positions newS.positions now s
      = [closeRecord s o now] := by
    simp [symbolTrades, ho, hn]
  have hmemS : s ∈ allUpdateSymbols oldS newS := by
    rw [allUpdateSymbols, mem_uniqueKeys]
    exact List.mem_append.mpr (Or.inl (posLookup_some_mem ho))
  have hFilter : (tradesOfUpdate oldS newS now).filter
      (fun t => t.symbol == s && (t.ttype == TradeType.tclose))
      = [closeRecord s o now] := by
    rw [tradesOfUpdate,
      flatten_filter_single _ _ (allUpdateSymbols oldS newS) s hmemS
        (uniqueKeys_nodup _) ?_, hTr]
    · simp [closeRecord]
    · intro s' _ hs'
      refine List.filter_eq_nil_iff.mpr (fun t ht => ?_)
      have hsym := symbolTrades_symbol _ _ _ _ t ht
      simp [hsym, hs']
  refine ⟨hTr, rfl, rfl, hFilter, updateWalletPnL_tradeHistory _ _ _ _,
    updateWalletPnL_realized _ _ _ _, ?_, updateWalletPnL_trades _ _ _ _, ?_⟩
  · simp [symbolRealized, hTr, isClosing, closeRecord]
  · simp [symbolCloses, hTr, isClosing, closeRecord]

/-- The BTC position of the full-lifecycle scenario. -/
def c2Btc : Position :=
  { symbol := "BTC", position := 1, avg_entry_price := 50000, sign := 1,
    open_order_count := 0, unrealized_pnl := 200,
    position_value := some 50000, mark_price := some 50200 }

def c2Old : Snapshot := { balance := 1000, positions := [("BTC", c2Btc)] }

def c2New : Snapshot := { balance := 1200, positions := [] }

/-- C2 witness: the scenario `{BTC: size 1, LONG, unrealized +200}` diffed
against the empty snapshot yields one `close` record with pnl `200`. -/
theorem c2_close_trade_witness :
    symbolTrades c2Old.positions c2New.positions 777 "BTC"
        = [closeRecord "BTC" c2Btc 777]
    ∧ (closeRecord "BTC" c2Btc 777).pnl = 200
    ∧ symbolRealized c2Old.positions c2New.positions 777 "BTC" = 200
    ∧ symbolCloses c2Old.positions c2New.positions 777 "BTC" = 1 := by
  obtain ⟨h1, h2, -, -, -, -, h7, -, h9⟩ :=
    c2_close_trade (some (initializeWalletPnL none 1000 0)) c2Old c2New 777
      "BTC" c2Btc (by simp [c2Old, posLookup]) (by simp [c2New, posLookup])
  exact ⟨h1, h2, h7, h9⟩

/-! ## Claim C3 -/

/-- C3: a symbol present in both snapshots whose size strictly decreased
contributes exactly one `partial_close` (`treduce`) record, with size
equal to the size delta `o.position - n.position` and pnl equal to the
old unrealized pnl scaled by `delta / oldSize`; the update folds that pnl
into `realizedPnL` and counts one trade for this symbol. -/
theorem c3_reduce_trade (existing : Option PnLState) (oldS newS : Snapshot)
    (now : Nat) (s : String) (o n : Position)
    (ho : posLookup oldS.positions s = some o)
    (hn : posLookup newS.positions s = some n)
    (hlt : n.position < o.position) :
    symbolTrades oldS.positions newS.positions now s = [reduceRecord s o n now]
    ∧ (reduceRecord s o n now).size = o.position - n.position
    ∧ (reduceRecord s o n now).pnl =
        o.unrealized_pnl * ((o.position - n.position) / o.position)
    ∧ (reduceRecord s o n now).ttype = TradeType.treduce
    ∧ (tradesOfUpdate oldS newS now).filter
        (fun t => t.symbol == s && (t.ttype == TradeType.treduce))
        = [reduceRecord s o n now]
    ∧ (updateWalletPnL existing (some oldS) (some newS) now).tradeHistory =
        keepLast 1000
          ((initializeWalletPnL existing (jsOrQ (some newS.balance) 0)
            now).tradeHistory ++ tradesOfUpdate oldS newS now)
    ∧ (updateWalletPnL existing (some oldS) (some newS) now).realizedPnL =
        (initializeWalletPnL existing (jsOrQ (some newS.balance) 0)
            now).realizedPnL +
          ((allUpdateSymbols oldS newS).map
            (symbolRealized oldS.positions newS.positions now)).sum
    ∧ symbolRealized oldS.positions newS.positions now s =
        o.unrealized_pnl * ((o.position - n.position) / o.position)
    ∧ (updateWalletPnL existing (some oldS) (some newS) now).trades =
        (initializeWalletPnL existing (jsOrQ (some newS.balance) 0)
            now).trades +
          ((allUpdateSymbols oldS newS).map
            (symbolCloses oldS.positions newS.positions now)).sum
    ∧ symbolCloses oldS.positions newS.positions now s = 1 := by
  have habs : jsAbs (n.position - o.position) = o.position - n.position := by
    rw [jsAbs, if_pos (by linarith)]
    ring
  have hTr : symbolTrades oldS.positions newS.positions now s
      = [reduceRecord s o n now] := by
    simp [symbolTrades, ho, hn, hlt.ne', hlt.asymm]
  have hSize : (reduceRecord s o n now).size = o.position - n.position := by
    simp [reduceRecord, habs]
  have hPnl : (reduceRecord s o n now).pnl =
      o.unrealized_pnl * ((o.position - n.position) / o.position) := by
    simp [reduceRecord, habs]
  have hmemS : s ∈ allUpdateSymbols oldS newS := by
    rw [allUpdateSymbols, mem_uniqueKeys]
    exact List.mem_append.mpr (Or.inl (posLookup_some_mem ho))
  have hFilter : (tradesOfUpdate oldS newS now).filter
      (fun t => t.symbol == s && (t.ttype == TradeType.treduce))
      = [reduceRecord s o n now] := by
    rw [tradesOfUpdate,
      flatten_filter_single _ _ (allUpdateSymbols oldS newS) s hmemS
        (uniqueKeys_nodup _) ?_, hTr]
    · simp [reduceRecord]
    · intro s' _ hs'
      refine List.filter_eq_nil_iff.mpr (fun t ht => ?_)
      have hsym := symbolTrades_symbol _ _ _ _ t ht
      simp [hsym, hs']
  refine ⟨hTr, hSize, hPnl, rfl, hFilter, updateWalletPnL_tradeHistory _ _ _ _,
    updateWalletPnL_realized _ _ _ _, ?_, updateWalletPnL_trades _ _ _ _, ?_⟩
  · rw [symbolRealized, hTr, ← hPnl]
    simp [isClosing, reduceRecord]
  · simp [symbolCloses, hTr, isClosing, reduceRecord]

/-- The ETH positions of the partial-reduce scenario. -/
def c3EthOld : Position :=
  { symbol := "ETH", position := 10, avg_entry_price := 2000, sign := 1,
    open_order_count := 0, unrealized_pnl := 100,
    position_value := some 20000, mark_price := none }

def c3EthNew : Position :=
  { symbol := "ETH", position := 6, avg_entry_price := 2000, sign := 1,
    open_order_count := 0, unrealized_pnl := 60,
    position_value := some 12000, mark_price := none }

def c3Old : Snapshot := { balance := 500, positions := [("ETH", c3EthOld)] }

def c3New : Snapshot := { balance := 500, positions := [("ETH", c3EthNew)] }

/-- C3 witness: reducing a 10-unit position with unrealized pnl 100 down
to 6 units yields one `partial_close` record with size 4 and pnl exactly
`100 * (4/10) = 40`. -/
theorem c3_reduce_trade_witness :
    symbolTrades c3Old.positions c3New.positions 888 "ETH"
        = [reduceRecord "ETH" c3EthOld c3EthNew 888]
    ∧ (reduceRecord "ETH" c3EthOld c3EthNew 888).size = 4
    ∧ (reduceRecord "ETH" c3EthOld c3EthNew 888).pnl = 40
    ∧ symbolRealized c3Old.positions c3New.positions 888 "ETH" = 40
    ∧ symbolCloses c3Old.positions c3New.positions 888 "ETH" = 1 := by
  obtain ⟨h1, h2, h3, -, -, -, -, h8, -, h10⟩ :=
    c3_reduce_trade (some (initializeWalletPnL none 500 0)) c3Old c3New 888
      "ETH" c3EthOld c3EthNew (by simp [c3Old, posLookup])
      (by simp [c3New, posLookup]) (by norm_num [c3EthOld, c3EthNew])
  refine ⟨h1, ?_, ?_, ?_, h10⟩
  · rw [h2]; norm_num [c3EthOld, c3EthNew]
  · rw [h3]; norm_num [c3EthOld, c3EthNew]
  · rw [h8]; norm_num [c3EthOld, c3EthNew]

/-! ## Event-side helpers -/

theorem eventFor_symbol {oldP newP : List (String × Position)} {s : String}
    {e : ChangeEvent} (he : eventFor oldP newP s = some e) :
    eventSymbol e = s := by
  unfold eventFor at he
  split at he
  · have h := Option.some.inj he
    subst h; rfl
  · have h := Option.some.inj he
    subst h; rfl
  · split at he
    · have h := Option.some.inj he
      subst h; rfl
    · cases he
  · cases he

theorem filterMap_eq_flatten {α β : Type} (g : α → Option β) :
    ∀ (l : List α), l.filterMap g = (l.map (fun a => (g a).toList)).flatten
  | [] => by simp
  | x :: xs => by
      cases hg : g x <;>
        simp [List.filterMap_cons, hg, filterMap_eq_flatten g xs]

theorem map_eventSymbol_filterMap (oldP newP : List (String × Position)) :
    ∀ (l : List String),
      (l.filterMap (eventFor oldP newP)).map eventSymbol
        = l.filter (fun s => (eventFor oldP newP s).isSome)
  | [] => by simp
  | x :: xs => by
      cases hg : eventFor oldP newP x with
      | none =>
          simp [List.filterMap_cons, hg,
            map_eventSymbol_filterMap oldP newP xs]
      | some e =>
          simp [List.filterMap_cons, hg,
            map_eventSymbol_filterMap oldP newP xs, eventFor_symbol hg]

/-! ## Claim C4 -/

/-- C4 (amended): the diff is deterministic, but its events come in
first-appearance order — the old snapshot's key order followed by the
new-only keys in the new snapshot's order (the changed symbols of the
set-union iteration), each symbol at most once — not in ascending symbol
order. -/
theorem c4_first_appearance_order (oldS newS : Snapshot) :
    (comparePositions oldS newS).map eventSymbol
      = (allUpdateSymbols oldS newS).filter
          (fun s => (eventFor oldS.positions newS.positions s).isSome)
    ∧ ((comparePositions oldS newS).map eventSymbol).Nodup := by
  have h := map_eventSymbol_filterMap oldS.positions newS.positions
    (allUpdateSymbols oldS newS)
  refine ⟨h, ?_⟩
  rw [show (comparePositions oldS newS).map eventSymbol = _ from h]
  exact List.Nodup.filter _ (uniqueKeys_nodup _)

def c4PosB : Position :=
  { symbol := "BBB", position := 2, avg_entry_price := 10, sign := 1,
    open_order_count := 0, unrealized_pnl := 5, position_value := none,
    mark_price := none }

def c4PosA : Position :=
  { symbol := "AAA", position := 3, avg_entry_price := 7, sign := -1,
    open_order_count := 0, unrealized_pnl := -2, position_value := none,
    mark_price := none }

def c4Old : Snapshot :=
  { balance := 100, positions := [("BBB", c4PosB), ("AAA", c4PosA)] }

def c4New : Snapshot := { balance := 100, positions := [] }

/-- C4 counterexample: closing the snapshot `{BBB, AAA}` (stored in that
key order) emits events in the order `BBB, AAA`, which is not ascending
symbol order. -/
theorem c4_counterexample :
    (comparePositions c4Old c4New).map eventSymbol = ["BBB", "AAA"]
    ∧ ¬ List.Sorted (fun a b : String => a ≤ b)
        ((comparePositions c4Old c4New).map eventSymbol) := by
  have hmap : (comparePositions c4Old c4New).map eventSymbol
      = ["BBB", "AAA"] := by
    simp [comparePositions, allUpdateSymbols, uniqueKeys, eventFor,
      posLookup, c4Old, c4New, eventSymbol]
  refine ⟨hmap, ?_⟩
  rw [hmap]
  intro hsort
  have h2 := (List.sorted_cons.mp hsort).1 "AAA" (by simp)
  rw [String.le_iff_toList_le] at h2
  revert h2
  decide

/-! ## Claim C8 -/

/-- C8 (amended): a symbol present in both snapshots with equal size and
a changed entry price yields a change event carrying both the before and
after positions, but classified `reduced` (since the new size is not
strictly greater than the old one), not a neutral `updated` variant; the
aggregator appends no trade record for it. -/
theorem c8_entry_change (oldS newS : Snapshot)
    (now : Nat) (s : String) (o n : Position)
    (ho : posLookup oldS.positions s = some o)
    (hn : posLookup newS.positions s = some n)
    (hsz : o.position = n.position)
    (hent : o.avg_entry_price ≠ n.avg_entry_price) :
    eventFor oldS.positions newS.positions s
        = some (ChangeEvent.changed s o n ChangeAction.reduced)
    ∧ (comparePositions oldS newS).filter (fun e => eventSymbol e == s)
        = [ChangeEvent.changed s o n ChangeAction.reduced]
    ∧ symbolTrades oldS.positions newS.positions now s = []
    ∧ (tradesOfUpdate oldS newS now).filter (fun t => t.symbol == s)
        = [] := by
  have hev : eventFor oldS.positions newS.positions s
      = some (ChangeEvent.changed s o n ChangeAction.reduced) := by
    simp [eventFor, ho, hn, hent, hsz]
  have hmemS : s ∈ allUpdateSymbols oldS newS := by
    rw [allUpdateSymbols, mem_uniqueKeys]
    exact List.mem_append.mpr (Or.inl (posLookup_some_mem ho))
  have hTr : symbolTrades oldS.positions newS.positions now s = [] := by
    simp [symbolTrades, ho, hn, hsz]
  have hFilterEv : (comparePositions oldS newS).filter
      (fun e => eventSymbol e == s)
      = [ChangeEvent.changed s o n ChangeAction.reduced] := by
    rw [comparePositions, filterMap_eq_flatten,
      flatten_filter_single _ _ (allUpdateSymbols oldS newS) s hmemS
        (uniqueKeys_nodup _) ?_, hev]
    · simp [eventSymbol]
    · intro s' _ hs'
      refine List.filter_eq_nil_iff.mpr (fun e he' => ?_)
      have hsome : eventFor oldS.positions newS.positions s' = some e := by
        cases hg : eventFor oldS.positions newS.positions s' with
        | none => rw [hg] at he'; cases he'
        | some e' =>
            rw [hg] at he'
            simp at he'
            rw [he']
      have hsym := eventFor_symbol hsome
      simp [hsym, hs']
  have hFilterTr : (tradesOfUpdate oldS newS now).filter
      (fun t => t.symbol == s) = [] := by
    rw [tradesOfUpdate,
      flatten_filter_single _ _ (allUpdateSymbols oldS newS) s hmemS
        (uniqueKeys_nodup _) ?_, hTr]
    · simp
    · intro s' _ hs'
      refine List.filter_eq_nil_iff.mpr (fun t ht => ?_)
      have hsym := symbolTrades_symbol _ _ _ _ t ht
      simp [hsym, hs']
  exact ⟨hev, hFilterEv, hTr, hFilterTr⟩

def c8PosOld : Position :=
  { symbol := "BTC", position := 1, avg_entry_price := 50000, sign := 1,
    open_order_count := 0, unrealized_pnl := 10, position_value := none,
    mark_price := none }

def c8PosNew : Position :=
  { symbol := "BTC", position := 1, avg_entry_price := 51000, sign := 1,
    open_order_count := 0, unrealized_pnl := 1010, position_value := none,
    mark_price := none }

def c8Old : Snapshot := { balance := 100, positions := [("BTC", c8PosOld)] }

def c8New : Snapshot := { balance := 100, positions := [("BTC", c8PosNew)] }

/-- C8 counterexample: with size unchanged (1) and entry price changed
(50000 → 51000) the emitted event is classified `reduced`, not the
`updated` variant the claim requires. -/
theorem c8_counterexample :
    comparePositions c8Old c8New
      = [ChangeEvent.changed "BTC" c8PosOld c8PosNew ChangeAction.reduced]
    ∧ ChangeAction.reduced ≠ ChangeAction.updated := by
  constructor
  · norm_num [comparePositions, allUpdateSymbols, uniqueKeys, eventFor,
      posLookup, c8Old, c8New, c8PosOld, c8PosNew, List.filterMap_cons]
  · simp

/-- C8 witness. -/
theorem c8_entry_change_witness :
    eventFor c8Old.positions c8New.positions "BTC"
        = some (ChangeEvent.changed "BTC" c8PosOld c8PosNew
            ChangeAction.reduced)
    ∧ symbolTrades c8Old.positions c8New.positions 999 "BTC" = [] := by
  obtain ⟨h1, -, h3, -⟩ :=
    c8_entry_change c8Old c8New 999 "BTC" c8PosOld c8PosNew
      (by simp [c8Old, posLookup]) (by simp [c8New, posLookup])
      (by norm_num [c8PosOld, c8PosNew]) (by norm_num [c8PosOld, c8PosNew])
  exact ⟨h1, h3⟩

/-! ## Claim C5 -/

/-- C5 (amended): in a monitor cycle for an address with a prior
snapshot, the aggregator (and with it the one unconditional
balance-history append inside `updateWalletPnL`) runs only when the diff
is non-empty; when the diff is empty the P&L state — including its
balance history — is left completely untouched. -/
theorem c5_balance_append (st : AddrState) (oldS : Snapshot)
    (r : FetchResult) (marks : Nat → Option ℚ) (now : Nat)
    (hprev : st.prev = some oldS) :
    ((comparePositions oldS (fetchPositions r marks)).isEmpty = true →
      (monitorStep st r marks now).1.pnl = st.pnl)
    ∧ ((comparePositions oldS (fetchPositions r marks)).isEmpty = false →
      (monitorStep st r marks now).1.pnl
        = some (updateWalletPnL st.pnl (some oldS)
            (some (fetchPositions r marks)) now)
      ∧ (updateWalletPnL st.pnl (some oldS)
            (some (fetchPositions r marks)) now).balanceHistory
        = keepLast 1000
            ((initializeWalletPnL st.pnl
                (jsOrQ (some (fetchPositions r marks).balance) 0)
                now).balanceHistory
              ++ [(⟨jsOrQ (some (fetchPositions r marks).balance) 0, now⟩ :
                    BalanceRecord)])) := by
  constructor
  · intro hempty
    simp [monitorStep, hprev, hempty]
  · intro hnonempty
    exact ⟨by simp [monitorStep, hprev, hnonempty],
      updateWalletPnL_balanceHistory _ _ _ _⟩

def c5Snap : Snapshot := { balance := 5, positions := [] }

def c5Acc : ApiAccount := { collateral := 5, positions := [] }

def c5Pnl : PnLState := initializeWalletPnL none 5 0

/-- C5 counterexample: a cycle whose fetch succeeds with an unchanged
(empty) snapshot has an empty diff, and the P&L state is returned
untouched — no balance record is appended in that cycle (the history
keeps its single seed record). -/
theorem c5_counterexample :
    (monitorStep ⟨some c5Snap, some c5Pnl⟩ (FetchResult.ok c5Acc)
        (fun _ => none) 1000).1.pnl = some c5Pnl
    ∧ c5Pnl.balanceHistory.length = 1 := by
  constructor
  · simp [monitorStep, fetchPositions, c5Acc, c5Snap, comparePositions,
      allUpdateSymbols, uniqueKeys]
  · simp [c5Pnl, initializeWalletPnL]

def c5bOld : Snapshot := { balance := 7, positions := [] }

def c5bRaw : RawPosition :=
  { symbol := "SOL", position := 2, avg_entry_price := 30, sign := 1,
    open_order_count := 0, unrealized_pnl := 3, position_value := 60,
    market_id := 5 }

def c5bAcc : ApiAccount := { collateral := 9, positions := [c5bRaw] }

def c5bPnl : PnLState := initializeWalletPnL none 7 0

/-- C5 witness. -/
theorem c5_balance_append_witness :
    ((comparePositions c5bOld
        (fetchPositions (FetchResult.ok c5bAcc) (fun _ => none))).isEmpty
          = true →
      (monitorStep ⟨some c5bOld, some c5bPnl⟩ (FetchResult.ok c5bAcc)
          (fun _ => none) 42).1.pnl = some c5bPnl)
    ∧ ((comparePositions c5bOld
        (fetchPositions (FetchResult.ok c5bAcc) (fun _ => none))).isEmpty
          = false →
      (monitorStep ⟨some c5bOld, some c5bPnl⟩ (FetchResult.ok c5bAcc)
          (fun _ => none) 42).1.pnl
        = some (updateWalletPnL (some c5bPnl) (some c5bOld)
            (some (fetchPositions (FetchResult.ok c5bAcc) (fun _ => none)))
            42)
      ∧ (updateWalletPnL (some c5bPnl) (some c5bOld)
            (some (fetchPositions (FetchResult.ok c5bAcc) (fun _ => none)))
            42).balanceHistory
        = keepLast 1000
            ((initializeWalletPnL (some c5bPnl)
                (jsOrQ (some (fetchPositions (FetchResult.ok c5bAcc)
                  (fun _ => none)).balance) 0) 42).balanceHistory
              ++ [(⟨jsOrQ (some (fetchPositions (FetchResult.ok c5bAcc)
                    (fun _ => none)).balance) 0, 42⟩ : BalanceRecord)])) :=
  c5_balance_append ⟨some c5bOld, some c5bPnl⟩ c5bOld
    (FetchResult.ok c5bAcc) (fun _ => none) 42 rfl

/-! ## Claim C1 -/

def c1Btc : Position :=
  { symbol := "BTC", position := 1, avg_entry_price := 50000, sign := 1,
    open_order_count := 0, unrealized_pnl := 200,
    position_value := some 50000, mark_price := some 50200 }

def c1Old : Snapshot := { balance := 1000, positions := [("BTC", c1Btc)] }

def c1Pnl : PnLState := initializeWalletPnL none 1000 0

/-- C1 (code bug): when the fetch fails, `fetchPositions` returns the
synthetic empty snapshot, and the monitor cycle diffs it against the
prior snapshot: for a wallet holding BTC with unrealized pnl 200, the
cycle emits a spurious `Closed` event, realizes phantom pnl 200
(incrementing the trade count) and overwrites the stored snapshot with
the empty one — instead of leaving snapshot and P&L state untouched. -/
theorem c1_failed_fetch_corrupts_state :
    fetchPositions FetchResult.fetchFailed (fun _ => none)
        = { balance := 0, positions := [] }
    ∧ (monitorStep ⟨some c1Old, some c1Pnl⟩ FetchResult.fetchFailed
        (fun _ => none) 15000).2 = [ChangeEvent.closed "BTC" c1Btc]
    ∧ (monitorStep ⟨some c1Old, some c1Pnl⟩ FetchResult.fetchFailed
        (fun _ => none) 15000).1.prev
        = some { balance := 0, positions := [] }
    ∧ ((monitorStep ⟨some c1Old, some c1Pnl⟩ FetchResult.fetchFailed
        (fun _ => none) 15000).1.pnl.map (fun p => p.realizedPnL))
        = some 200
    ∧ ((monitorStep ⟨some c1Old, some c1Pnl⟩ FetchResult.fetchFailed
        (fun _ => none) 15000).1.pnl.map (fun p => p.trades)) = some 1 := by
  have hdiff : comparePositions c1Old { balance := 0, positions := [] }
      = [ChangeEvent.closed "BTC" c1Btc] := by
    simp [comparePositions, allUpdateSymbols, uniqueKeys, eventFor,
      posLookup, c1Old, List.filterMap_cons]
  simp only [c1Old, c1Btc] at hdiff
  refine ⟨rfl, ?_, ?_, ?_, ?_⟩ <;>
    norm_num [monitorStep, fetchPositions, hdiff, updateWalletPnL,
      applyChanges, stepSymbol, symbolTrades, closeRecord, posLookup,
      c1Old, c1Btc, c1Pnl, initializeWalletPnL, keepLast, jsOrQ, uniqueKeys]

/-! ## Claim C6 -/

/-- C6 (amended): the holding-time pairing uses `tradeHistory.find(...)`,
so a closing trade is paired with the FIRST matching `open` record in
history order (same symbol and side, timestamp strictly before the
close) — not with the most recent prior one. -/
theorem c6_pairs_first_matching_open (history : List TradeRecord)
    (t u : TradeRecord) (h : findOpenFor history t = some u) :
    matchesOpen t u = true
    ∧ ∃ l₁ l₂, history = l₁ ++ u :: l₂
        ∧ ∀ v ∈ l₁, matchesOpen t v = false := by
  induction history with
  | nil => cases h
  | cons x xs ih =>
      rw [findOpenFor, List.find?_cons] at h
      cases hmx : matchesOpen t x
      · rw [hmx] at h
        obtain ⟨h1, l₁, l₂, heq, hall⟩ := ih h
        refine ⟨h1, x :: l₁, l₂, by rw [heq]; rfl, fun v hv => ?_⟩
        rcases List.mem_cons.mp hv with rfl | hv'
        · exact hmx
        · exact hall v hv'
      · rw [hmx] at h
        have hu := Option.some.inj h
        subst hu
        exact ⟨hmx, [], xs, rfl, fun v hv => by cases hv⟩

/-- Modelled from the claim's wording: pair each closing trade with the
most recent prior matching `open` (the one with the largest timestamp
strictly before the close). -/
def mostRecentOpenFor (history : List TradeRecord) (t : TradeRecord) :
    Option TradeRecord :=
  (history.filter (matchesOpen t)).foldl
    (fun acc u =>
      match acc with
      | none => some u
      | some v => if v.timestamp < u.timestamp then some u else some v)
    none

/-- Hold times under the claim's most-recent-prior-open pairing. -/
def holdTimesSpec (st : PnLState) : List ℚ :=
  ((closedTrades st).map (fun t =>
    match mostRecentOpenFor st.tradeHistory t with
    | some u => ((t.timestamp : ℚ) - (u.timestamp : ℚ)) / 3600000
    | none => 0)).filter (fun q => decide (0 < q))

/-- Average hold time under the claim's pairing. -/
def avgHoldTimeSpec (st : PnLState) : ℚ :=
  if 0 < (holdTimesSpec st).length then
    (holdTimesSpec st).sum / ((holdTimesSpec st).length : ℚ)
  else 0

def c6OpenA : TradeRecord :=
  { symbol := "ETH", side := .LONG, size := 1, entryPrice := 100,
    exitPrice := none, pnl := 0, timestamp := 0, ttype := .topen }

def c6CloseA : TradeRecord :=
  { symbol := "ETH", side := .LONG, size := 1, entryPrice := 100,
    exitPrice := some 110, pnl := 10, timestamp := 3600000,
    ttype := .tclose }

def c6OpenB : TradeRecord :=
  { symbol := "ETH", side := .LONG, size := 1, entryPrice := 110,
    exitPrice := none, pnl := 0, timestamp := 7200000, ttype := .topen }

def c6CloseB : TradeRecord :=
  { symbol := "ETH", side := .LONG, size := 1, entryPrice := 110,
    exitPrice := some 115, pnl := 5, timestamp := 10800000,
    ttype := .tclose }

def c6Stats : PnLState :=
  { totalPnL := 15, realizedPnL := 15, unrealizedPnL := 0, trades := 2,
    startTime := 0, initialBalance := 100, lastBalance := 115,
    tradeHistory := [c6OpenA, c6CloseA, c6OpenB, c6CloseB],
    balanceHistory := [⟨100, 0⟩] }

/-- C6 counterexample: open at 0h, close at 1h, reopen at 2h, close at
3h (same symbol and side).  The code pairs the second close with the
FIRST open (delta 3h), reporting an average of 2h, while the claim's
most-recent-prior-open pairing gives deltas 1h and 1h, average 1h. -/
theorem c6_counterexample :
    findOpenFor c6Stats.tradeHistory c6CloseB = some c6OpenA
    ∧ c6OpenB ∈ c6Stats.tradeHistory
    ∧ matchesOpen c6CloseB c6OpenB = true
    ∧ c6OpenA.timestamp < c6OpenB.timestamp
    ∧ avgHoldTime c6Stats = 2
    ∧ avgHoldTimeSpec c6Stats = 1 := by
  have hct : closedTrades c6Stats = [c6CloseA, c6CloseB] := by decide
  have hfA : findOpenFor c6Stats.tradeHistory c6CloseA = some c6OpenA := by
    decide
  have hfB : findOpenFor c6Stats.tradeHistory c6CloseB = some c6OpenA := by
    decide
  have hmA : mostRecentOpenFor c6Stats.tradeHistory c6CloseA
      = some c6OpenA := by decide
  have hmB : mostRecentOpenFor c6Stats.tradeHistory c6CloseB
      = some c6OpenB := by decide
  have hht : holdTimes c6Stats = [1, 3] := by
    rw [holdTimes, hct]
    simp only [List.map_cons, List.map_nil, hfA, hfB]
    norm_num [c6OpenA, c6CloseA, c6CloseB]
  have hhs : holdTimesSpec c6Stats = [1, 1] := by
    rw [holdTimesSpec, hct]
    simp only [List.map_cons, List.map_nil, hmA, hmB]
    norm_num [c6OpenA, c6OpenB, c6CloseA, c6CloseB]
  refine ⟨hfB, by decide, by decide, by decide, ?_, ?_⟩
  · rw [avgHoldTime, hct, hht]
    norm_num
  · rw [avgHoldTimeSpec, hhs]
    norm_num

/-- C6 witness. -/
theorem c6_pairs_first_matching_open_witness :
    matchesOpen c6CloseB c6OpenA = true
    ∧ ∃ l₁ l₂, c6Stats.tradeHistory = l₁ ++ c6OpenA :: l₂
        ∧ ∀ v ∈ l₁, matchesOpen c6CloseB v = false :=
  c6_pairs_first_matching_open c6Stats.tradeHistory c6CloseB c6OpenA
    (by decide)

/-! ## Claim C9 -/

/-- Replaying calls that all lie in one sub-60-second window: no pruning
ever happens, so admits are counted until the window is full. -/
theorem runCalls_window (L : Nat) (t0 : Nat) :
    ∀ (calls reqs : List Nat),
      (∀ t ∈ calls, t0 ≤ t ∧ t < t0 + 60000) →
      (∀ t ∈ reqs, t0 ≤ t ∧ t < t0 + 60000) →
      reqs.length ≤ L →
      (runCalls L calls reqs).1 = min calls.length (L - reqs.length)
  | [], reqs, _, _, _ => by simp [runCalls]
  | c :: cs, reqs, hcalls, hreqs, hlen => by
      have hc := hcalls c (by simp)
      have hprune : reqs.filter (fun t => decide (c - t < 60000)) = reqs := by
        refine List.filter_eq_self.mpr (fun t ht => ?_)
        have hr := hreqs t ht
        simp only [decide_eq_true_eq]
        omega
      rw [runCalls]
      unfold checkRateLimit
      rw [hprune]
      by_cases hfull : L ≤ reqs.length
      · have hlenL : reqs.length = L := le_antisymm hlen hfull
        rw [if_pos hfull]
        simp only
        rw [runCalls_window L t0 cs reqs
          (fun t ht => hcalls t (by simp [ht])) hreqs hlen]
        simp [hlenL]
      · have hlt : reqs.length < L := Nat.not_le.mp hfull
        rw [if_neg hfull]
        simp only
        rw [runCalls_window L t0 cs (reqs ++ [c])
          (fun t ht => hcalls t (by simp [ht]))
          (fun t ht => by
            rcases List.mem_append.mp ht with h | h
            · exact hreqs t h
            · simp at h; subst h; exact hc)
          (by simp; omega)]
        simp only [List.length_append, List.length_cons, List.length_nil,
          eq_self_iff_true, if_true]
        have hsub : L - reqs.length = (L - (reqs.length + 1)) + 1 := by
          omega
        rw [hsub]
        rcases Nat.le_total cs.length (L - (reqs.length + 1)) with hle | hle
        · rw [min_eq_left hle, min_eq_left (by omega)]
          omega
        · rw [min_eq_right hle, min_eq_right (by omega)]
          omega

/-- C9: for a non-privileged caller with limit `L ≥ 1`, (a) starting from
an empty window, a burst of calls inside one rolling 60-second span is
admitted exactly `min count L` times — so the `(L+1)`-th call inside the
window is rejected; (b) a rejected call records no timestamp (the window
is only pruned); (c) once every recorded timestamp is at least 60 s old,
the window prunes to empty and the next call is admitted with a fresh
single-entry window. -/
theorem c9_rate_gate (L : Nat) (hL : 1 ≤ L) :
    (∀ (t0 : Nat) (calls : List Nat),
      (∀ t ∈ calls, t0 ≤ t ∧ t < t0 + 60000) →
      (runCalls L calls []).1 = min calls.length L)
    ∧ (∀ (now : Nat) (reqs : List Nat),
        (checkRateLimit L now reqs).1 = false →
        (checkRateLimit L now reqs).2
          = reqs.filter (fun t => decide (now - t < 60000)))
    ∧ (∀ (now : Nat) (reqs : List Nat),
        (∀ t ∈ reqs, t + 60000 ≤ now) →
        (checkRateLimit L now reqs).1 = true
        ∧ (checkRateLimit L now reqs).2 = [now]) := by
  refine ⟨fun t0 calls hw => ?_, fun now reqs hrej => ?_,
    fun now reqs hgap => ?_⟩
  · have h := runCalls_window L t0 calls [] hw (by simp) (by simp)
    simpa using h
  · rw [checkRateLimit] at hrej ⊢
    by_cases h : L ≤ (reqs.filter (fun t => decide (now - t < 60000))).length
    · rw [if_pos h]
    · rw [if_neg h] at hrej
      simp at hrej
  · have hempty : reqs.filter (fun t => decide (now - t < 60000)) = [] := by
      refine List.filter_eq_nil_iff.mpr (fun t ht => ?_)
      have := hgap t ht
      simp only [decide_eq_true_eq]
      omega
    rw [checkRateLimit, hempty]
    rw [if_neg (by simp; omega)]
    exact ⟨rfl, rfl⟩

/-- C9 witness (at the configured limit 30): 35 calls in one window admit
exactly 30; a rejected call only prunes; after a >60 s gap the window
resets to the single new timestamp. -/
theorem c9_rate_gate_witness :
    (runCalls 30 (List.range 35) []).1 = min (List.range 35).length 30
    ∧ (checkRateLimit 30 100000 (List.replicate 30 99000)).2
        = (List.replicate 30 99000).filter
            (fun t => decide (100000 - t < 60000))
    ∧ ((checkRateLimit 30 200000 [100000]).1 = true
        ∧ (checkRateLimit 30 200000 [100000]).2 = [200000]) := by
  obtain ⟨h1, h2, h3⟩ := c9_rate_gate 30 (by decide)
  refine ⟨h1 0 (List.range 35) ?_, h2 100000 _ ?_, h3 200000 [100000] ?_⟩
  · intro t ht
    have := List.mem_range.mp ht
    omega
  · decide
  · intro t ht
    simp at ht
    omega

/-! ## Claim C10 -/

def c10Stats : PnLState :=
  { totalPnL := 0, realizedPnL := 0, unrealizedPnL := 0, trades := 0,
    startTime := 0, initialBalance := 0, lastBalance := -5,
    tradeHistory := [], balanceHistory := [⟨0, 0⟩, ⟨-5, 1⟩] }

/-- C10: a reachable P&L state (states are restored verbatim from the
persistence file, and balances are passed through from the upstream
collateral field) with `initialBalance = 0` whose effective equity never
exceeds 0 and is at some point negative makes the unguarded
`(peak - totalValue) / peak` divide by the zero peak, so the reported max
drawdown is the non-finite `Infinity`. -/
theorem c10_drawdown_infinite :
    c10Stats.initialBalance = 0
    ∧ (∀ r ∈ c10Stats.balanceHistory, equityAt c10Stats r ≤ 0)
    ∧ (∃ r ∈ c10Stats.balanceHistory, equityAt c10Stats r < 0)
    ∧ maxDrawdownJs c10Stats = JsNum.inf := by
  refine ⟨rfl, ?_,
    ⟨⟨-5, 1⟩, by simp [c10Stats], by norm_num [equityAt, c10Stats]⟩, ?_⟩
  · intro r hr
    simp only [c10Stats, List.mem_cons, List.not_mem_nil, or_false] at hr
    rcases hr with rfl | rfl <;> norm_num [equityAt, c10Stats]
  · norm_num [maxDrawdownJs, equityAt, c10Stats, jsDiv, jsMul100, jsGt]

end LighterWallets
